import Mathlib

/-!
Shallow embedding of the TrustTap Keycard core: the `KeycardService`
(PIN verification, status tracking, transaction signing), the APDU layer
of `NFCService` (`formatAPDU` and the fixed command constructions), the
`KEYCARD_CONFIG.APDU_COMMANDS` table of the constants module, and the
BIP32 derivation-path helpers (`isValidDerivationPath`,
`parseDerivationPath`) of the utility module.

Byte sequences are modelled as `List Nat` with values reduced mod 256
where the source truncates; JS numbers that the code only uses as exact
integers are modelled as `Nat`/`Int`; strings are `String` or
`List Char`; thrown `Error`s become explicit error values.  Simulated
hardware replies (`sendPinVerificationCommand`, `sendSigningCommand`)
are translated exactly as the source computes them, and each
service-level operation additionally reports how many hardware
exchanges it performed (0 or 1), which in the source is the number of
`send...Command` invocations.
-/

namespace TrustTap

/-- The `KeycardStatus` record of `KeycardService`.  `pinRetries` is a JS
number that the code decrements without a lower bound, so it is an `Int`. -/
structure KeycardStatus where
  initialized : Bool
  pinRetries : Int
  pukRetries : Int
  version : String
  deriving DecidableEq

/-- The errors `KeycardService` throws, one constructor per distinct
`throw new Error(...)` message: `notConnected` = "Keycard not connected",
`pinFormat` = "PIN must be 4-6 digits", `pinExhausted` = "PIN attempts
exhausted. Keycard locked.", `invalidPin n` = "Invalid PIN. n attempts
remaining." (with `none` when `this.cardStatus` is null). -/
inductive KCError where
  | notConnected
  | pinFormat
  | pinExhausted
  | invalidPin (retries : Option Int)
  deriving DecidableEq

/-- The mutable fields of the `KeycardService` singleton. -/
structure ServiceState where
  isConnected : Bool
  cardStatus : Option KeycardStatus
  deriving DecidableEq

/-- The status that `initializeKeycard` installs. -/
def initialStatus : KeycardStatus :=
  { initialized := true, pinRetries := 3, pukRetries := 5, version := "3.4" }

/-- KeycardService.initializeKeycard: unconditionally installs the fixed
card status and sets `isConnected`; it never inspects the previous state
and has no failure path in its simulated body. -/
def initializeKeycard (_st : ServiceState) : KeycardStatus × ServiceState :=
  (initialStatus, { isConnected := true, cardStatus := some initialStatus })

/-- Test of the character class `\d` of a JS regex. -/
def isDigitChar (c : Char) : Bool :=
  48 ≤ c.toNat && c.toNat ≤ 57

/-- Test of the PIN-format regex `/^\d{4,6}$/` used by `verifyPin`. -/
def pinFormatOk (pin : List Char) : Bool :=
  decide (4 ≤ pin.length) && decide (pin.length ≤ 6) && pin.all isDigitChar

/-- KeycardService.sendPinVerificationCommand: the simulated hardware reply,
a bare boolean `pin.length === 4 || pin.length === 6`. -/
def sendPinVerificationCommand (pin : List Char) : Bool :=
  pin.length == 4 || pin.length == 6

/-- KeycardService.verifyPin.  Returns the result (or thrown error), the
service state after the call, and the number of hardware exchanges
(`sendPinVerificationCommand` invocations) the call performed. -/
def verifyPin (st : ServiceState) (pin : List Char) :
    Except KCError Bool × ServiceState × Nat :=
  if st.isConnected = false then (.error .notConnected, st, 0)
  else if pinFormatOk pin = false then (.error .pinFormat, st, 0)
  else
    let isValid := sendPinVerificationCommand pin
    if isValid = false then
      match st.cardStatus with
      | some cs =>
        let cs2 : KeycardStatus := { cs with pinRetries := cs.pinRetries - 1 }
        if cs2.pinRetries = 0 then
          (.error .pinExhausted, { st with cardStatus := some cs2 }, 1)
        else
          (.error (.invalidPin (some cs2.pinRetries)),
            { st with cardStatus := some cs2 }, 1)
      | none => (.error (.invalidPin none), st, 1)
    else (.ok true, st, 1)

/-- The `SigningResult` record returned by `signTransaction` (same fields
as the object resolved by `sendSigningCommand`). -/
structure SigningResult where
  signature : String
  v : Int
  r : String
  s : String
  deriving DecidableEq

/-- The mock signature string `'0x' + 'b'.repeat(130)`. -/
def mockSignature : String := "0x" ++ String.mk (List.replicate 130 'b')

/-- The mock r component `'0x' + 'c'.repeat(64)`. -/
def mockR : String := "0x" ++ String.mk (List.replicate 64 'c')

/-- The mock s component `'0x' + 'd'.repeat(64)`. -/
def mockS : String := "0x" ++ String.mk (List.replicate 64 'd')

/-- KeycardService.sendSigningCommand: the simulated hardware reply, a
fixed record with `v = 27`; the digest argument is ignored. -/
def sendSigningCommand (_dataToSign : String) : SigningResult :=
  { signature := mockSignature, v := 27, r := mockR, s := mockS }

/-- KeycardService.signTransaction, taking the transaction digest already
computed (the hashing is done by the external ethers library).  Returns
the result (or thrown error) and the number of hardware exchanges. -/
def signTransaction (st : ServiceState) (txHash : String) :
    Except KCError SigningResult × Nat :=
  if st.isConnected = false then (.error .notConnected, 0)
  else (.ok (sendSigningCommand txHash), 1)

/-- The `KeycardAPDU` record of `NFCService`.  `data` holds the command
data bytes (the source carries them as a hex string; an empty list is the
falsy absent/empty case), `le` the optional expected response length. -/
structure KeycardAPDU where
  cla : Nat
  ins : Nat
  p1 : Nat
  p2 : Nat
  data : List Nat
  le : Option Nat
  deriving DecidableEq

/-- NFCService.byteToHex: `('0' + byte.toString(16)).slice(-2)` keeps the
last two hex digits, i.e. emits the byte value mod 256. -/
def byteToHex (b : Nat) : Nat := b % 256

/-- NFCService.formatAPDU: header bytes, then `Lc|Data` when data is
present (truthy) and a single `0x00` Lc byte otherwise, then the Le byte
when `le` is defined. -/
def formatAPDU (a : KeycardAPDU) : List Nat :=
  [byteToHex a.cla, byteToHex a.ins, byteToHex a.p1, byteToHex a.p2]
    ++ (if a.data.isEmpty then [0] else byteToHex a.data.length :: a.data)
    ++ (match a.le with | some l => [byteToHex l] | none => [])

/-- The Keycard AID `A0000008040001` as bytes. -/
def keycardAID : List Nat := [0xa0, 0x00, 0x00, 0x08, 0x04, 0x00, 0x01]

/-- The APDU built by NFCService.selectKeycard. -/
def selectKeycardAPDU : KeycardAPDU :=
  { cla := 0x00, ins := 0xa4, p1 := 0x04, p2 := 0x00,
    data := keycardAID, le := some 256 }

/-- The APDU built by NFCService.getKeycardStatus. -/
def getStatusAPDU : KeycardAPDU :=
  { cla := 0x80, ins := 0xf2, p1 := 0x00, p2 := 0x00,
    data := [], le := some 256 }

/-- The APDU built by NFCService.verifyPin: the data is the PIN encoded
as its character bytes (`Buffer.from(pin).toString('hex')`). -/
def verifyPinAPDU (pin : List Char) : KeycardAPDU :=
  { cla := 0x80, ins := 0x20, p1 := 0x00, p2 := 0x00,
    data := pin.map Char.toNat, le := some 0 }

/-- The APDU built by NFCService.getPublicKey. -/
def getPublicKeyAPDU (keyPath : Nat) : KeycardAPDU :=
  { cla := 0x80, ins := 0xf7, p1 := 0x00, p2 := keyPath,
    data := [], le := some 256 }

/-- The APDU built by NFCService.signData. -/
def signDataAPDU (d : List Nat) : KeycardAPDU :=
  { cla := 0x80, ins := 0xc0, p1 := 0x00, p2 := 0x00,
    data := d, le := some 256 }

/-- One entry of `KEYCARD_CONFIG.APDU_COMMANDS` in the constants module. -/
structure InsSpec where
  CLA : Nat
  INS : Nat
  deriving DecidableEq

/-- KEYCARD_CONFIG.APDU_COMMANDS.SELECT. -/
def cfgSELECT : InsSpec := { CLA := 0x00, INS := 0xa4 }

/-- KEYCARD_CONFIG.APDU_COMMANDS.VERIFY_PIN. -/
def cfgVERIFY_PIN : InsSpec := { CLA := 0x80, INS := 0x20 }

/-- KEYCARD_CONFIG.APDU_COMMANDS.GET_PUBLIC_KEY. -/
def cfgGET_PUBLIC_KEY : InsSpec := { CLA := 0x80, INS := 0xf7 }

/-- KEYCARD_CONFIG.APDU_COMMANDS.SIGN. -/
def cfgSIGN : InsSpec := { CLA := 0x80, INS := 0xc0 }

/-- KEYCARD_CONFIG.APDU_COMMANDS.GET_STATUS. -/
def cfgGET_STATUS : InsSpec := { CLA := 0x80, INS := 0xf2 }

/-- The codec error of the spec's APDU decoder. -/
inductive CodecError where
  | protocolError
  deriving DecidableEq

/-- The `APDUResponse` record of the spec's APDU codec. -/
structure APDUResponse where
  data : List Nat
  sw1 : Nat
  sw2 : Nat
  deriving DecidableEq

/-- Modelled from the spec: the APDU Codec's `decode` is not present under
src/ (the services return raw response hex unparsed), so it is modelled
from the spec's words: "splits the trailing two bytes as the status word,
the remainder as payload; fewer than 2 bytes is a ProtocolError". -/
def decode (bytes : List Nat) : Except CodecError APDUResponse :=
  match bytes.reverse with
  | s2 :: s1 :: rest => .ok { data := rest.reverse, sw1 := s1, sw2 := s2 }
  | _ => .error .protocolError

/-- The apostrophe character marking a hardened derivation-path segment. -/
def apos : Char := Char.ofNat 39

/-- The slash separating derivation-path segments. -/
def sl : Char := Char.ofNat 47

/-- States of the automaton for the regex `/^m(\/\d+'?)*$/` used by
`isValidDerivationPath`: `start` before the leading m, `seg` right after
m or after a hardened segment (a slash or the end may follow),
`needDigit` right after a slash, `inDigits` inside a segment's digit run,
`dead` once the input has diverged from the pattern. -/
inductive PathSt where
  | start
  | seg
  | needDigit
  | inDigits
  | dead
  deriving DecidableEq

/-- One transition of the derivation-path automaton. -/
def pathStep (st : PathSt) (c : Char) : PathSt :=
  match st with
  | .start => if c = 'm' then .seg else .dead
  | .seg => if c = sl then .needDigit else .dead
  | .needDigit => if isDigitChar c then .inDigits else .dead
  | .inDigits =>
      if isDigitChar c then .inDigits
      else if c = apos then .seg
      else if c = sl then .needDigit
      else .dead
  | .dead => .dead

/-- Run the derivation-path automaton from a state over a character list. -/
def runFrom : PathSt → List Char → PathSt
  | st, [] => st
  | st, c :: rest => runFrom (pathStep st c) rest

/-- Accepting states of the derivation-path automaton: after the leading
m, after a complete segment, or inside a digit run. -/
def accepts : PathSt → Bool
  | .seg => true
  | .inDigits => true
  | _ => false

/-- isValidDerivationPath: the regex test `/^m(\/\d+'?)*$/.test(path)`,
embedded as its automaton. -/
def isValidDerivationPath (path : List Char) : Bool :=
  accepts (runFrom .start path)

/-- JS `String.prototype.split(sep)` for a one-character separator. -/
def splitOnChar (sep : Char) : List Char → List (List Char)
  | [] => [[]]
  | c :: cs =>
      let r := splitOnChar sep cs
      if c = sep then [] :: r else (c :: r.headI) :: r.tail

/-- JS `String.prototype.replace(c, '')` for a one-character pattern:
removes the first occurrence only. -/
def removeFirst (c : Char) : List Char → List Char
  | [] => []
  | x :: xs => if x = c then xs else x :: removeFirst c xs

/-- Numeric value of a decimal digit character. -/
def digitVal (c : Char) : Nat := c.toNat - 48

/-- Decimal value of a digit string. -/
def digitsToNat (ds : List Char) : Nat :=
  ds.foldl (fun a c => a * 10 + digitVal c) 0

/-- Exact-integer model of JS `parseInt(s, 10)` on the strings the parser
feeds it (a digit run): the value of the leading digit prefix.  The NaN
cases of `parseInt` are unreachable behind the validity check. -/
def jsParseInt (s : List Char) : Nat :=
  digitsToNat (s.takeWhile isDigitChar)

/-- The per-segment body of `parseDerivationPath`: hardened iff the part
ends with an apostrophe; the first apostrophe is removed before parsing;
hardened segments get `0x80000000` added. -/
def parsePart (part : List Char) : Nat :=
  let index := jsParseInt (removeFirst apos part)
  if part.getLast? = some apos then index + 0x80000000 else index

/-- The error message thrown by `parseDerivationPath`. -/
def invalidPathMsg : String := "Invalid derivation path"

/-- parseDerivationPath: validates against the path regex, splits on
slashes, drops the leading "m", and maps each part to its index. -/
def parseDerivationPath (path : List Char) : Except String (List Nat) :=
  if isValidDerivationPath path = true then
    .ok (((splitOnChar sl path).drop 1).map parsePart)
  else
    .error invalidPathMsg

/-- A derivation-path segment for specification purposes: its digit
characters and whether it is hardened. -/
def renderSeg (p : List Char × Bool) : List Char :=
  p.1 ++ (if p.2 then [apos] else [])

/-- The character list `/seg₁/seg₂...` of a segment list. -/
def flatSegs : List (List Char × Bool) → List Char
  | [] => []
  | p :: rest => sl :: (renderSeg p ++ flatSegs rest)

/-- The full rendered path `m/seg₁/...` of a segment list. -/
def renderPath (segs : List (List Char × Bool)) : List Char :=
  'm' :: flatSegs segs

/-- Well-formedness of a segment list: every segment is a nonempty run of
decimal digits. -/
def segsWF (segs : List (List Char × Bool)) : Bool :=
  segs.all (fun p => !p.1.isEmpty && p.1.all isDigitChar)

/-- The index value a segment denotes: its decimal value, plus `2^31`
when hardened. -/
def segValue (p : List Char × Bool) : Nat :=
  if p.2 then digitsToNat p.1 + 0x80000000 else digitsToNat p.1

/-! Theorems.  First the APDU codec layer, then the service layer, then
the derivation-path parser. -/

/-- Splitting a frame that ends in exactly two status bytes recovers the
prefix as payload and those two bytes as the status word. -/
theorem decode_append (pre : List Nat) (a b : Nat) :
    decode (pre ++ [a, b]) = .ok { data := pre, sw1 := a, sw2 := b } := by
  simp [decode, List.reverse_append]

/-- C6: decode splits the trailing two bytes off as the status word and
returns the remaining prefix as the payload, and fails with the
ProtocolError on inputs of fewer than 2 bytes. -/
theorem decode_splits_status_word :
    (∀ (payload : List Nat) (a b : Nat),
        decode (payload ++ [a, b]) = .ok { data := payload, sw1 := a, sw2 := b })
    ∧ (∀ bytes : List Nat, bytes.length < 2 → decode bytes = .error .protocolError) := by
  refine ⟨decode_append, ?_⟩
  intro bytes h
  match bytes with
  | [] => rfl
  | [_] => rfl
  | _ :: _ :: _ => simp [List.length_cons] at h; omega

/-- Witness for C6 at a one-byte payload with status word 0x9000 and at
the malformed single-byte input. -/
theorem decode_splits_status_word_witness :
    decode [5, 0x90, 0x00] = .ok { data := [5], sw1 := 0x90, sw2 := 0x00 }
    ∧ decode [7] = .error .protocolError :=
  ⟨decode_splits_status_word.1 [5] 0x90 0x00,
   decode_splits_status_word.2 [7] (by decide)⟩

/-- C8 counterexample: decoding `encode(cmd) ++ payload ++ sw` for the
SELECT command with empty payload and status 0x9000 returns the encoded
command bytes as payload, not the original (empty) payload. -/
theorem apdu_roundtrip_counterexample :
    decode (formatAPDU selectKeycardAPDU ++ ([] : List Nat) ++ [0x90, 0x00])
      = .ok { data := formatAPDU selectKeycardAPDU, sw1 := 0x90, sw2 := 0x00 }
    ∧ formatAPDU selectKeycardAPDU ≠ ([] : List Nat) := by
  exact ⟨by rfl, by decide⟩

/-- C8 amended: decoding `encode(cmd) ++ responsePayload ++ sw` recovers
the status word exactly, and recovers the payload with the encoded
command bytes prefixed to it (equivalently, `decode(payload ++ sw)`
recovers payload and status word exactly; the command frame is not part
of a response frame). -/
theorem apdu_roundtrip_amended (cmd : KeycardAPDU) (payload : List Nat) (s1 s2 : Nat) :
    decode (formatAPDU cmd ++ payload ++ [s1, s2])
      = .ok { data := formatAPDU cmd ++ payload, sw1 := s1, sw2 := s2 } :=
  decode_append (formatAPDU cmd ++ payload) s1 s2

/-- C5 counterexample: for the GET STATUS command, which carries no data,
the encoder emits a 0x00 Lc byte rather than omitting the Lc/Data fields:
the output is 6 bytes, not the 5-byte CLA|INS|P1|P2|Le frame the claim
requires. -/
theorem formatAPDU_lc_counterexample :
    formatAPDU getStatusAPDU = [0x80, 0xf2, 0x00, 0x00, 0x00, 0x00]
    ∧ formatAPDU getStatusAPDU ≠ [0x80, 0xf2, 0x00, 0x00, 0x00] := by
  exact ⟨by rfl, by decide⟩

/-- C5 amended: encode(cmd) produces CLA|INS|P1|P2|Lc|Data|[Le] where a
command carrying no data gets a single 0x00 Lc byte (Lc is not omitted),
a command with data gets its length byte followed by the data, and the Le
byte (the expected length mod 256) is appended exactly when
expectedLength is set. -/
theorem formatAPDU_layout (a : KeycardAPDU) :
    formatAPDU a =
      [a.cla % 256, a.ins % 256, a.p1 % 256, a.p2 % 256]
        ++ (if a.data = [] then [0] else (a.data.length % 256) :: a.data)
        ++ (match a.le with | some l => [l % 256] | none => []) := by
  cases h : a.data <;> cases hle : a.le <;>
    simp [formatAPDU, byteToHex, h, hle]

/-- C7: the five commands use exactly the fixed encodings, and they agree
with the `KEYCARD_CONFIG.APDU_COMMANDS` table. -/
theorem apdu_command_encodings :
    selectKeycardAPDU.cla = 0x00 ∧ selectKeycardAPDU.ins = 0xa4
    ∧ selectKeycardAPDU.p1 = 0x04 ∧ selectKeycardAPDU.p2 = 0x00
    ∧ selectKeycardAPDU.data = [0xa0, 0x00, 0x00, 0x08, 0x04, 0x00, 0x01]
    ∧ (∀ pin, (verifyPinAPDU pin).cla = 0x80 ∧ (verifyPinAPDU pin).ins = 0x20)
    ∧ getStatusAPDU.cla = 0x80 ∧ getStatusAPDU.ins = 0xf2
    ∧ (∀ k, (getPublicKeyAPDU k).cla = 0x80 ∧ (getPublicKeyAPDU k).ins = 0xf7)
    ∧ (∀ d, (signDataAPDU d).cla = 0x80 ∧ (signDataAPDU d).ins = 0xc0)
    ∧ cfgSELECT = { CLA := selectKeycardAPDU.cla, INS := selectKeycardAPDU.ins }
    ∧ cfgVERIFY_PIN = { CLA := 0x80, INS := 0x20 }
    ∧ cfgGET_STATUS = { CLA := 0x80, INS := 0xf2 }
    ∧ cfgGET_PUBLIC_KEY = { CLA := 0x80, INS := 0xf7 }
    ∧ cfgSIGN = { CLA := 0x80, INS := 0xc0 } :=
  ⟨rfl, rfl, rfl, rfl, rfl, fun _ => ⟨rfl, rfl⟩, rfl, rfl,
   fun _ => ⟨rfl, rfl⟩, fun _ => ⟨rfl, rfl⟩, rfl, rfl, rfl, rfl, rfl⟩

/-- C9: a PIN that is not 4 to 6 decimal digits is rejected with the
PIN-format error before any hardware exchange (0 exchanges performed)
and the stored card status is unchanged. -/
theorem verifyPin_format_guard (st : ServiceState) (pin : List Char)
    (hc : st.isConnected = true) (hf : pinFormatOk pin = false) :
    verifyPin st pin = (.error .pinFormat, st, 0) := by
  simp [verifyPin, hc, hf]

/-- Witness for C9 at a connected state and the two-digit PIN "12". -/
theorem verifyPin_format_guard_witness :
    verifyPin { isConnected := true, cardStatus := some initialStatus } "12".toList
      = (.error .pinFormat, { isConnected := true, cardStatus := some initialStatus }, 0) :=
  verifyPin_format_guard _ _ rfl (by decide)

/-- C1 counterexample: signing returns the simulated card response with
recovery id v = 27, which is not chosen from the set {0, 1}, and no
recovery check against a derived public key is performed (the result is
ok, never a SignatureRecoveryError, and no such error exists in the
service's error type). -/
theorem signTransaction_v27_counterexample :
    signTransaction { isConnected := true, cardStatus := some initialStatus } "0xabc"
      = (.ok { signature := mockSignature, v := 27, r := mockR, s := mockS }, 1)
    ∧ ¬((27 : Int) = 0 ∨ (27 : Int) = 1) :=
  ⟨rfl, by decide⟩

/-- C1 amended: on a connected state, signTransaction returns exactly the
(r, s, v) fields of the card's signing response unchanged, with a single
hardware exchange; the simulated response carries v = 27, and no
recovery-id selection via ecrecover and no SignatureRecoveryError path
exist. -/
theorem signTransaction_returns_card_response (st : ServiceState) (txHash : String)
    (hc : st.isConnected = true) :
    signTransaction st txHash = (.ok (sendSigningCommand txHash), 1)
    ∧ (sendSigningCommand txHash).v = 27 := by
  exact ⟨by simp [signTransaction, hc], rfl⟩

/-- Witness for the amended C1 at a connected state. -/
theorem signTransaction_returns_card_response_witness :
    signTransaction { isConnected := true, cardStatus := some initialStatus } "0xd"
        = (.ok (sendSigningCommand "0xd"), 1)
    ∧ (sendSigningCommand "0xd").v = 27 :=
  signTransaction_returns_card_response _ _ rfl

/-- C2 counterexample: from a connected state with 3 retries stored, a
failed VERIFY (PIN "12345": well-formed, rejected by the simulated card)
leaves the stored counter at 2 — computed client-side as 3 - 1 — while
the hardware exchange of the call reported only the bare boolean false,
no retry counter. -/
theorem pinRetries_client_decrement_counterexample :
    verifyPin { isConnected := true, cardStatus := some initialStatus } "12345".toList
      = (.error (.invalidPin (some 2)),
         { isConnected := true,
           cardStatus := some { initialized := true, pinRetries := 2,
                                pukRetries := 5, version := "3.4" } }, 1)
    ∧ sendPinVerificationCommand "12345".toList = false :=
  ⟨rfl, rfl⟩

/-- C2 amended: on every failed VERIFY the stored pinRetries value is
decremented client-side by one from the previously stored value; the
simulated hardware reply is a bare boolean that carries no retry
counter. -/
theorem pinRetries_client_computed (st : ServiceState) (cs : KeycardStatus) (pin : List Char)
    (hc : st.isConnected = true) (hcs : st.cardStatus = some cs)
    (hf : pinFormatOk pin = true) (hv : sendPinVerificationCommand pin = false) :
    ((verifyPin st pin).2.1).cardStatus = some { cs with pinRetries := cs.pinRetries - 1 } := by
  simp [verifyPin, hc, hf, hv, hcs]
  split <;> simp

/-- Witness for the amended C2 at the initial connected state and PIN
"12345". -/
theorem pinRetries_client_computed_witness :
    ((verifyPin { isConnected := true, cardStatus := some initialStatus }
        "12345".toList).2.1).cardStatus
      = some { initialStatus with pinRetries := initialStatus.pinRetries - 1 } :=
  pinRetries_client_computed _ initialStatus _ rfl rfl (by decide) (by decide)

/-- C3 counterexample: from the state the claim calls Locked (0 retries
remaining, connected), a further VERIFY is not rejected without hardware
contact: it performs a hardware exchange (count 1) and decrements the
stored counter to -1 with an invalid-PIN error, and a signing request
performs a hardware exchange and succeeds. -/
theorem locked_state_counterexample :
    verifyPin { isConnected := true,
                cardStatus := some { initialized := true, pinRetries := 0,
                                     pukRetries := 5, version := "3.4" } } "12345".toList
      = (.error (.invalidPin (some (-1))),
         { isConnected := true,
           cardStatus := some { initialized := true, pinRetries := -1,
                                pukRetries := 5, version := "3.4" } }, 1)
    ∧ signTransaction { isConnected := true,
                        cardStatus := some { initialized := true, pinRetries := 0,
                                             pukRetries := 5, version := "3.4" } } "0xd"
        = (.ok { signature := mockSignature, v := 27, r := mockR, s := mockS }, 1) :=
  ⟨rfl, rfl⟩

/-- C3 amended: each failed VERIFY on a connected state performs one
hardware exchange and decrements the stored counter by one; reaching 0
raises the exhaustion error and any other value the invalid-PIN error,
but no locked state is recorded: the counter keeps decreasing below zero
on further failed VERIFYs, and signing requests still perform a hardware
exchange regardless of the stored counter. -/
theorem failed_verify_decrements_no_lockout
    (st : ServiceState) (cs : KeycardStatus) (pin : List Char) (txHash : String)
    (hc : st.isConnected = true) (hcs : st.cardStatus = some cs)
    (hf : pinFormatOk pin = true) (hv : sendPinVerificationCommand pin = false) :
    (verifyPin st pin).2.2 = 1
    ∧ (verifyPin st pin).2.1
        = { st with cardStatus := some { cs with pinRetries := cs.pinRetries - 1 } }
    ∧ (cs.pinRetries - 1 = 0 → (verifyPin st pin).1 = .error .pinExhausted)
    ∧ (cs.pinRetries - 1 ≠ 0 →
        (verifyPin st pin).1 = .error (.invalidPin (some (cs.pinRetries - 1))))
    ∧ (signTransaction st txHash).2 = 1 := by
  simp only [verifyPin, hc, hf, hv, hcs]
  refine ⟨?_, ?_, ?_, ?_, by simp [signTransaction, hc]⟩ <;>
    by_cases h0 : cs.pinRetries - 1 = 0 <;> simp [h0]

/-- Witness for the amended C3 at a connected state with 1 retry left
(the failed VERIFY exhausts the counter). -/
theorem failed_verify_decrements_no_lockout_witness :
    (verifyPin { isConnected := true,
                 cardStatus := some { initialized := true, pinRetries := 1,
                                      pukRetries := 5, version := "3.4" } }
        "12345".toList).2.2 = 1
    ∧ (verifyPin { isConnected := true,
                   cardStatus := some { initialized := true, pinRetries := 1,
                                        pukRetries := 5, version := "3.4" } }
        "12345".toList).2.1
        = { isConnected := true,
            cardStatus := some { initialized := true, pinRetries := 0,
                                 pukRetries := 5, version := "3.4" } }
    ∧ ((1 : Int) - 1 = 0 →
        (verifyPin { isConnected := true,
                     cardStatus := some { initialized := true, pinRetries := 1,
                                          pukRetries := 5, version := "3.4" } }
          "12345".toList).1 = .error .pinExhausted)
    ∧ ((1 : Int) - 1 ≠ 0 →
        (verifyPin { isConnected := true,
                     cardStatus := some { initialized := true, pinRetries := 1,
                                          pukRetries := 5, version := "3.4" } }
          "12345".toList).1
          = .error (.invalidPin (some ((1 : Int) - 1))))
    ∧ (signTransaction { isConnected := true,
                         cardStatus := some { initialized := true, pinRetries := 1,
                                              pukRetries := 5, version := "3.4" } } "0xd").2 = 1 :=
  failed_verify_decrements_no_lockout _
    { initialized := true, pinRetries := 1, pukRetries := 5, version := "3.4" }
    _ _ rfl rfl (by decide) (by decide)

/-- C4 counterexample: calling initializeKeycard while a session is
already connected does not return a SessionAlreadyActive error (no error
path exists in the operation at all): it succeeds, returning the fresh
fixed status and overwriting the stored one — here resetting a card
status with 1 retry left back to 3. -/
theorem connect_while_connected_counterexample :
    initializeKeycard { isConnected := true,
                        cardStatus := some { initialized := true, pinRetries := 1,
                                             pukRetries := 5, version := "3.4" } }
      = (initialStatus, { isConnected := true, cardStatus := some initialStatus })
    ∧ (initializeKeycard { isConnected := true,
                           cardStatus := some { initialized := true, pinRetries := 1,
                                                pukRetries := 5, version := "3.4" } }).2
        ≠ { isConnected := true,
            cardStatus := some { initialized := true, pinRetries := 1,
                                 pukRetries := 5, version := "3.4" } } :=
  ⟨rfl, by decide⟩

/-- C4 amended: initializeKeycard performs no already-connected check:
invoked while a session is connected it succeeds, installing the fixed
initial card status and leaving the connection flag set; its result type
has no error, so no SessionAlreadyActive can be reported.  (The service
is a single module-level instance, so no second session object exists
either way.) -/
theorem initializeKeycard_no_session_check (st : ServiceState)
    (hc : st.isConnected = true) :
    initializeKeycard st
      = (initialStatus, { isConnected := true, cardStatus := some initialStatus })
    ∧ (initializeKeycard st).2.isConnected = st.isConnected := by
  exact ⟨rfl, by simp [initializeKeycard, hc]⟩

/-- Witness for the amended C4 at a connected state. -/
theorem initializeKeycard_no_session_check_witness :
    initializeKeycard { isConnected := true, cardStatus := some initialStatus }
      = (initialStatus, { isConnected := true, cardStatus := some initialStatus })
    ∧ (initializeKeycard { isConnected := true, cardStatus := some initialStatus }).2.isConnected
      = ServiceState.isConnected { isConnected := true, cardStatus := some initialStatus } :=
  initializeKeycard_no_session_check _ rfl

/-! Derivation-path automaton lemmas. -/

/-- Unfolding of one automaton step over a cons cell. -/
theorem runFrom_cons (st : PathSt) (c : Char) (l : List Char) :
    runFrom st (c :: l) = runFrom (pathStep st c) l := rfl

/-- The dead state absorbs all further input. -/
theorem runFrom_dead : ∀ l : List Char, runFrom .dead l = .dead := by
  intro l
  induction l with
  | nil => rfl
  | cons c t ih => simpa [runFrom_cons, pathStep] using ih

/-- A decimal digit is not the apostrophe. -/
theorem isDigitChar_ne_apos {c : Char} (h : isDigitChar c = true) : c ≠ apos := by
  intro he; rw [he] at h; exact absurd h (by decide)

/-- A decimal digit is not the slash. -/
theorem isDigitChar_ne_sl {c : Char} (h : isDigitChar c = true) : c ≠ sl := by
  intro he; rw [he] at h; exact absurd h (by decide)

/-- Step facts of the automaton on the fixed separator characters. -/
theorem pathStep_start_m : pathStep PathSt.start 'm' = PathSt.seg := by decide

/-- A slash after a complete segment opens the next segment. -/
theorem pathStep_seg_sl : pathStep PathSt.seg sl = PathSt.needDigit := by decide

/-- An apostrophe after digits closes a hardened segment. -/
theorem pathStep_inDigits_apos : pathStep PathSt.inDigits apos = PathSt.seg := by decide

/-- A slash after digits opens the next segment. -/
theorem pathStep_inDigits_sl : pathStep PathSt.inDigits sl = PathSt.needDigit := by decide

/-- A digit after a slash enters the digit run. -/
theorem pathStep_needDigit_digit {c : Char} (h : isDigitChar c = true) :
    pathStep PathSt.needDigit c = PathSt.inDigits := by
  simp [pathStep, h]

/-- A digit extends the digit run. -/
theorem pathStep_inDigits_digit {c : Char} (h : isDigitChar c = true) :
    pathStep PathSt.inDigits c = PathSt.inDigits := by
  simp [pathStep, h]

/-- A digit run is skipped over from the inDigits state. -/
theorem runFrom_inDigits_digits :
    ∀ (ds r : List Char), ds.all isDigitChar = true →
      runFrom .inDigits (ds ++ r) = runFrom .inDigits r := by
  intro ds
  induction ds with
  | nil => intro r _; rfl
  | cons c t ih =>
      intro r h
      rw [List.all_cons, Bool.and_eq_true] at h
      rw [List.cons_append, runFrom_cons, pathStep_inDigits_digit h.1]
      exact ih r h.2

/-- On a rendered segment list the inDigits and seg states accept alike
(the list is empty or starts with a slash). -/
theorem accepts_inDigits_eq_seg_flat (segs : List (List Char × Bool)) :
    accepts (runFrom .inDigits (flatSegs segs)) = accepts (runFrom .seg (flatSegs segs)) := by
  cases segs with
  | nil => rfl
  | cons p rest =>
      show accepts (runFrom PathSt.inDigits (sl :: (renderSeg p ++ flatSegs rest)))
        = accepts (runFrom PathSt.seg (sl :: (renderSeg p ++ flatSegs rest)))
      rw [runFrom_cons, runFrom_cons, pathStep_inDigits_sl, pathStep_seg_sl]

/-- Soundness of the automaton on rendered segment lists: a well-formed
segment list renders to an accepted suffix. -/
theorem seg_accepts_flatSegs :
    ∀ segs, segsWF segs = true → accepts (runFrom .seg (flatSegs segs)) = true := by
  intro segs
  induction segs with
  | nil => intro _; rfl
  | cons p rest ih =>
      intro h
      simp only [segsWF, List.all_cons, Bool.and_eq_true] at h
      obtain ⟨⟨hne, hdig⟩, hrest⟩ := h
      cases hp : p.1 with
      | nil => rw [hp] at hne; exact absurd hne (by decide)
      | cons d t =>
          rw [hp, List.all_cons, Bool.and_eq_true] at hdig
          show accepts (runFrom PathSt.seg (sl :: (renderSeg p ++ flatSegs rest))) = true
          rw [runFrom_cons, pathStep_seg_sl, renderSeg, hp]
          rw [List.append_assoc, List.cons_append, runFrom_cons,
              pathStep_needDigit_digit hdig.1,
              runFrom_inDigits_digits t _ hdig.2]
          cases hb : p.2 with
          | true =>
              rw [if_pos rfl, List.singleton_append, runFrom_cons, pathStep_inDigits_apos]
              exact ih hrest
          | false =>
              rw [if_neg (by decide : ¬(false = true)), List.nil_append,
                  accepts_inDigits_eq_seg_flat]
              exact ih hrest

/-- The automaton accepts the rendering of every well-formed segment list. -/
theorem isValid_renderPath (segs : List (List Char × Bool)) (h : segsWF segs = true) :
    isValidDerivationPath (renderPath segs) = true := by
  have hx := seg_accepts_flatSegs segs h
  simpa [isValidDerivationPath, renderPath, runFrom_cons, pathStep_start_m] using hx

/-- Unfolding of the splitter over a cons cell. -/
theorem splitOnChar_cons (sep c : Char) (cs : List Char) :
    splitOnChar sep (c :: cs)
      = if c = sep then [] :: splitOnChar sep cs
        else (c :: (splitOnChar sep cs).headI) :: (splitOnChar sep cs).tail := rfl

/-- A separator-free prefix lands entirely in the first chunk of the split. -/
theorem splitOnChar_append_of_no_sep (ys : List Char) :
    ∀ (zs h : List Char) (t : List (List Char)),
      (∀ c ∈ ys, c ≠ sl) → splitOnChar sl zs = h :: t →
      splitOnChar sl (ys ++ zs) = (ys ++ h) :: t := by
  induction ys with
  | nil => intro zs h t _ hz; simpa using hz
  | cons c ys' ih =>
      intro zs h t hy hz
      have hc : ¬(c = sl) := hy c (by simp)
      rw [List.cons_append, splitOnChar_cons, if_neg hc,
          ih zs h t (fun x hx => hy x (by simp [hx])) hz]
      simp

/-- Splitting a rendered segment list on slashes yields an empty leading
chunk followed by the rendered segments. -/
theorem split_flatSegs :
    ∀ segs, segsWF segs = true →
      splitOnChar sl (flatSegs segs) = [] :: segs.map renderSeg := by
  intro segs
  induction segs with
  | nil => intro _; rfl
  | cons p rest ih =>
      intro h
      simp only [segsWF, List.all_cons, Bool.and_eq_true] at h
      obtain ⟨⟨hne, hdig⟩, hrest⟩ := h
      have hnosl : ∀ c ∈ renderSeg p, c ≠ sl := by
        intro c hcmem
        rw [renderSeg] at hcmem
        rcases List.mem_append.mp hcmem with hm1 | hm2
        · exact isDigitChar_ne_sl (List.all_eq_true.mp hdig c hm1)
        · cases hb : p.2 <;> rw [hb] at hm2 <;> simp at hm2
          rw [hm2]; decide
      have hsp := ih hrest
      show splitOnChar sl (sl :: (renderSeg p ++ flatSegs rest)) = _
      rw [splitOnChar_cons, if_pos rfl,
          splitOnChar_append_of_no_sep (renderSeg p) (flatSegs rest) []
            (rest.map renderSeg) hnosl hsp]
      simp

/-- Removing a character absent from a list leaves the list unchanged. -/
theorem removeFirst_of_no_mem (c : Char) :
    ∀ l : List Char, (∀ x ∈ l, x ≠ c) → removeFirst c l = l := by
  intro l
  induction l with
  | nil => intro _; rfl
  | cons x t ih =>
      intro h
      have hx : ¬(x = c) := h x (by simp)
      simp [removeFirst, hx, ih (fun y hy => h y (by simp [hy]))]

/-- Removing the apostrophe from a hardened rendering strips exactly the
trailing apostrophe. -/
theorem removeFirst_append_apos (ds : List Char) (h : ∀ x ∈ ds, x ≠ apos) :
    removeFirst apos (ds ++ [apos]) = ds := by
  induction ds with
  | nil => simp [removeFirst]
  | cons x t ih =>
      have hx : ¬(x = apos) := h x (by simp)
      show removeFirst apos (x :: (t ++ [apos])) = x :: t
      simp only [removeFirst, if_neg hx]
      rw [ih (fun y hy => h y (by simp [hy]))]

/-- takeWhile keeps an all-digit list whole. -/
theorem takeWhile_all_digits :
    ∀ ds : List Char, ds.all isDigitChar = true → ds.takeWhile isDigitChar = ds := by
  intro ds
  induction ds with
  | nil => intro _; rfl
  | cons d t ih =>
      intro h
      rw [List.all_cons, Bool.and_eq_true] at h
      simp [List.takeWhile_cons, h.1, ih h.2]

/-- An all-digit list does not end with the apostrophe. -/
theorem getLast?_all_digits (ds : List Char) (h : ds.all isDigitChar = true) :
    ¬(ds.getLast? = some apos) := by
  intro hl
  have hmem := List.mem_of_mem_getLast? hl
  exact absurd (List.all_eq_true.mp h apos hmem) (by decide)

/-- parsePart on a rendered well-formed segment computes the claimed
index value. -/
theorem parsePart_renderSeg (p : List Char × Bool)
    (_hne : p.1 ≠ []) (hdig : p.1.all isDigitChar = true) :
    parsePart (renderSeg p) = segValue p := by
  have hnoap : ∀ x ∈ p.1, x ≠ apos := fun x hx =>
    isDigitChar_ne_apos (List.all_eq_true.mp hdig x hx)
  cases hb : p.2 with
  | true =>
      have hrs : renderSeg p = p.1 ++ [apos] := by simp [renderSeg, hb]
      rw [hrs]
      simp only [parsePart]
      rw [if_pos (List.getLast?_concat _), removeFirst_append_apos p.1 hnoap]
      simp only [jsParseInt]
      rw [takeWhile_all_digits p.1 hdig]
      simp [segValue, hb]
  | false =>
      have hrs : renderSeg p = p.1 := by simp [renderSeg, hb]
      rw [hrs]
      simp only [parsePart]
      rw [if_neg (getLast?_all_digits p.1 hdig), removeFirst_of_no_mem apos p.1 hnoap]
      simp only [jsParseInt]
      rw [takeWhile_all_digits p.1 hdig]
      simp [segValue, hb]

/-- Mapping parsePart over rendered well-formed segments yields the
claimed index values. -/
theorem map_parsePart_renderSeg :
    ∀ segs, segsWF segs = true →
      (segs.map renderSeg).map parsePart = segs.map segValue := by
  intro segs
  induction segs with
  | nil => intro _; rfl
  | cons p rest ih =>
      intro h
      simp only [segsWF, List.all_cons, Bool.and_eq_true] at h
      obtain ⟨⟨hne, hdig⟩, hrest⟩ := h
      have hne' : p.1 ≠ [] := by
        intro he; rw [he] at hne; exact absurd hne (by decide)
      simp [parsePart_renderSeg p hne' hdig, ih hrest]

/-- parseDerivationPath maps a rendered well-formed segment list to its
index values. -/
theorem parse_renderPath (segs : List (List Char × Bool)) (h : segsWF segs = true) :
    parseDerivationPath (renderPath segs) = .ok (segs.map segValue) := by
  have hv := isValid_renderPath segs h
  have hsp := split_flatSegs segs h
  simp only [parseDerivationPath, hv, if_pos]
  have hsplit2 : splitOnChar sl (renderPath segs) = ['m'] :: segs.map renderSeg := by
    show splitOnChar sl ('m' :: flatSegs segs) = _
    rw [splitOnChar_cons, if_neg (by decide : ¬('m' = sl)), hsp]
    simp
  rw [hsplit2]
  simp [map_parsePart_renderSeg segs h]

/-- Decomposition of a suffix the automaton accepts from the inDigits
state: a digit run, then either a hardened closure plus a further
accepted segment list, or directly a further accepted segment list. -/
theorem inDigits_decomp :
    ∀ l : List Char, accepts (runFrom .inDigits l) = true →
      ∃ ds rest, l = ds ++ rest ∧ ds.all isDigitChar = true ∧
        ((∃ r2, rest = apos :: r2 ∧ accepts (runFrom .seg r2) = true)
          ∨ accepts (runFrom .seg rest) = true) := by
  intro l
  induction l with
  | nil => intro _; exact ⟨[], [], rfl, rfl, Or.inr rfl⟩
  | cons c t ih =>
      intro h
      rw [runFrom_cons] at h
      cases hd : isDigitChar c with
      | true =>
          rw [pathStep_inDigits_digit hd] at h
          obtain ⟨ds, rest, he, hds, hcase⟩ := ih h
          refine ⟨c :: ds, rest, by rw [List.cons_append, he], ?_, hcase⟩
          rw [List.all_cons, hd, hds]; rfl
      | false =>
          by_cases ha : c = apos
          · subst ha
            rw [pathStep_inDigits_apos] at h
            exact ⟨[], apos :: t, rfl, rfl, Or.inl ⟨t, rfl, h⟩⟩
          · by_cases hs : c = sl
            · subst hs
              rw [pathStep_inDigits_sl] at h
              refine ⟨[], sl :: t, rfl, rfl, Or.inr ?_⟩
              rw [runFrom_cons, pathStep_seg_sl]
              exact h
            · rw [show pathStep PathSt.inDigits c = PathSt.dead from by
                    simp [pathStep, hd, ha, hs], runFrom_dead] at h
              exact absurd h (by decide)

/-- Completeness of the automaton: every suffix accepted from the seg
state is the rendering of a well-formed segment list. -/
theorem seg_decomp :
    ∀ n (l : List Char), l.length ≤ n → accepts (runFrom .seg l) = true →
      ∃ segs, segsWF segs = true ∧ flatSegs segs = l := by
  intro n
  induction n with
  | zero =>
      intro l hl _
      have hnil : l = [] := List.length_eq_zero.mp (Nat.le_zero.mp hl)
      exact hnil ▸ ⟨[], rfl, rfl⟩
  | succ n ih =>
      intro l hl h
      cases l with
      | nil => exact ⟨[], rfl, rfl⟩
      | cons c t =>
          rw [runFrom_cons] at h
          by_cases hs : c = sl
          case neg =>
            rw [show pathStep PathSt.seg c = PathSt.dead from by simp [pathStep, hs],
                runFrom_dead] at h
            exact absurd h (by decide)
          subst hs
          rw [pathStep_seg_sl] at h
          cases t with
          | nil => exact absurd h (by decide)
          | cons d t' =>
              rw [runFrom_cons] at h
              by_cases hd : isDigitChar d = true
              case neg =>
                rw [show pathStep PathSt.needDigit d = PathSt.dead from by
                      simp [pathStep, hd], runFrom_dead] at h
                exact absurd h (by decide)
              rw [pathStep_needDigit_digit hd] at h
              obtain ⟨ds, rest, he, hds, hcase⟩ := inDigits_decomp t' h
              have hlt := congrArg List.length he
              simp only [List.length_append] at hlt
              simp only [List.length_cons] at hl
              rcases hcase with ⟨r2, hr2, hacc⟩ | hacc
              · have hlen : r2.length ≤ n := by
                  rw [hr2] at hlt; simp only [List.length_cons] at hlt; omega
                obtain ⟨segs2, hwf2, hflat2⟩ := ih r2 hlen hacc
                refine ⟨(d :: ds, true) :: segs2, ?_, ?_⟩
                · simp only [segsWF, List.all_cons, Bool.and_eq_true] at hwf2 ⊢
                  exact ⟨⟨by simp, hd, hds⟩, hwf2⟩
                · simp [flatSegs, renderSeg, hflat2, he, hr2]
              · have hlen : rest.length ≤ n := by omega
                obtain ⟨segs2, hwf2, hflat2⟩ := ih rest hlen hacc
                refine ⟨(d :: ds, false) :: segs2, ?_, ?_⟩
                · simp only [segsWF, List.all_cons, Bool.and_eq_true] at hwf2 ⊢
                  exact ⟨⟨by simp, hd, hds⟩, hwf2⟩
                · simp [flatSegs, renderSeg, hflat2, he]

/-- Every string the validity regex accepts is the rendering of a
well-formed segment list. -/
theorem valid_renderPath_exists (s : List Char) (h : isValidDerivationPath s = true) :
    ∃ segs, segsWF segs = true ∧ s = renderPath segs := by
  cases s with
  | nil => exact absurd h (by decide)
  | cons c rest =>
      simp only [isValidDerivationPath, runFrom_cons] at h
      by_cases hm : c = 'm'
      · subst hm
        rw [pathStep_start_m] at h
        obtain ⟨segs, hwf, hflat⟩ := seg_decomp rest.length rest le_rfl h
        exact ⟨segs, hwf, by simp [renderPath, hflat]⟩
      · rw [show pathStep PathSt.start c = PathSt.dead from by simp [pathStep, hm],
            runFrom_dead] at h
        exact absurd h (by decide)

/-- C10: every string matching the pattern m(/index')* parses to one
integer per segment — the plain decimal index, plus 2^31 for hardened
(apostrophe-suffixed) segments — and every non-matching string produces
the invalid-derivation-path error.  Matching strings are exactly the
renderings of well-formed segment lists (nonempty digit runs with a
hardened flag). -/
theorem parseDerivationPath_correct :
    (∀ segs : List (List Char × Bool), segsWF segs = true →
        isValidDerivationPath (renderPath segs) = true
        ∧ parseDerivationPath (renderPath segs) = .ok (segs.map segValue))
    ∧ (∀ s : List Char, isValidDerivationPath s = true →
        ∃ segs, segsWF segs = true ∧ s = renderPath segs)
    ∧ (∀ s : List Char, isValidDerivationPath s = false →
        parseDerivationPath s = .error invalidPathMsg) :=
  ⟨fun segs h => ⟨isValid_renderPath segs h, parse_renderPath segs h⟩,
   valid_renderPath_exists,
   fun _ h => by simp [parseDerivationPath, h]⟩

/-- Witness for C10 on the path m/44'/0 (one hardened and one plain
segment), on the matching string m/7, and on the non-matching string
m7. -/
theorem parseDerivationPath_correct_witness :
    (isValidDerivationPath (renderPath [(['4', '4'], true), (['0'], false)]) = true
      ∧ parseDerivationPath (renderPath [(['4', '4'], true), (['0'], false)])
          = .ok ([(['4', '4'], true), (['0'], false)].map segValue))
    ∧ (∃ segs, segsWF segs = true ∧ "m/7".toList = renderPath segs)
    ∧ parseDerivationPath "m7".toList = .error invalidPathMsg :=
  ⟨parseDerivationPath_correct.1 [(['4', '4'], true), (['0'], false)] (by decide),
   parseDerivationPath_correct.2.1 "m/7".toList (by decide),
   parseDerivationPath_correct.2.2 "m7".toList (by decide)⟩

end TrustTap
